import Mathlib

/- Verification of the fraud-detection core of the blockchain_analytics
repository: a shallow embedding, over rational numbers and lists, of the
risk-category ladder, the anomaly-score normalization, the ensemble
combination, the fit control flow, the feature-engineering queries and
the clustering evaluator, together with proofs of the specified
properties. -/

namespace BlockchainAnalytics

/-! ## Risk category ladder

Embedding of calculate_risk_category (data_science/utils.py, lines
349-365) and of FraudService._get_risk_category
(backend/app/services/fraud_service.py, lines 34-50).  Fraud scores are
modelled as rationals.  The core function reads its two lower
thresholds from CONFIG.model (data_science/config.py, defaults 0.7 and
0.4); the backend hard-codes all three thresholds. -/

/-- CONFIG.model.high_risk_threshold (data_science/config.py, line 126). -/
def highRiskThreshold : ℚ := 7/10

/-- CONFIG.model.medium_risk_threshold (data_science/config.py, line 127). -/
def mediumRiskThreshold : ℚ := 4/10

/-- calculate_risk_category (data_science/utils.py): 0.9 hard-coded,
then the two configured thresholds, evaluated high to low. -/
def calculate_risk_category (fraud_score : ℚ) : String :=
  if fraud_score ≥ 9/10 then "critical"
  else if fraud_score ≥ highRiskThreshold then "high"
  else if fraud_score ≥ mediumRiskThreshold then "medium"
  else "low"

namespace FraudService

/-- FraudService._get_risk_category (backend fraud_service.py): the same
ladder with all three thresholds hard-coded. -/
def get_risk_category (fraud_score : ℚ) : String :=
  if fraud_score ≥ 9/10 then "critical"
  else if fraud_score ≥ 7/10 then "high"
  else if fraud_score ≥ 4/10 then "medium"
  else "low"

end FraudService

/-- C1: for every fraud score the core calculate_risk_category and the
backend service get_risk_category return the same category, and that
category follows the fixed ladder exactly at the boundaries: 0.9 and
above is critical, 0.7 inclusive up to 0.9 exclusive is high, 0.4
inclusive up to 0.7 exclusive is medium, and below 0.4 is low. -/
theorem risk_category_ladder_agrees (s : ℚ) :
    calculate_risk_category s = FraudService.get_risk_category s ∧
    (9/10 ≤ s → calculate_risk_category s = "critical") ∧
    (7/10 ≤ s → s < 9/10 → calculate_risk_category s = "high") ∧
    (4/10 ≤ s → s < 7/10 → calculate_risk_category s = "medium") ∧
    (s < 4/10 → calculate_risk_category s = "low") := by
  refine ⟨rfl, fun ha => ?_, fun ha hb => ?_, fun ha hb => ?_, fun ha => ?_⟩
  · unfold calculate_risk_category
    rw [if_pos (show s ≥ 9/10 from ha)]
  · unfold calculate_risk_category highRiskThreshold
    rw [if_neg (show ¬ s ≥ 9/10 from not_le.mpr hb), if_pos (show s ≥ 7/10 from ha)]
  · unfold calculate_risk_category highRiskThreshold mediumRiskThreshold
    rw [if_neg (show ¬ s ≥ 9/10 from not_le.mpr (lt_of_lt_of_le hb (by norm_num))),
      if_neg (show ¬ s ≥ 7/10 from not_le.mpr hb), if_pos (show s ≥ 4/10 from ha)]
  · unfold calculate_risk_category highRiskThreshold mediumRiskThreshold
    rw [if_neg (show ¬ s ≥ 9/10 from not_le.mpr (lt_of_lt_of_le ha (by norm_num))),
      if_neg (show ¬ s ≥ 7/10 from not_le.mpr (lt_of_lt_of_le ha (by norm_num))),
      if_neg (show ¬ s ≥ 4/10 from not_le.mpr ha)]

/-- Boundary witness for C1, at the six scores named by the spec. -/
theorem risk_category_ladder_agrees_witness :
    calculate_risk_category (9/10) = "critical" ∧
    calculate_risk_category (89999/100000) = "high" ∧
    calculate_risk_category (7/10) = "high" ∧
    calculate_risk_category (69999/100000) = "medium" ∧
    calculate_risk_category (4/10) = "medium" ∧
    calculate_risk_category (39999/100000) = "low" :=
  ⟨(risk_category_ladder_agrees (9/10)).2.1 (by norm_num),
   (risk_category_ladder_agrees (89999/100000)).2.2.1 (by norm_num) (by norm_num),
   (risk_category_ladder_agrees (7/10)).2.2.1 (by norm_num) (by norm_num),
   (risk_category_ladder_agrees (69999/100000)).2.2.2.1 (by norm_num) (by norm_num),
   (risk_category_ladder_agrees (4/10)).2.2.2.1 (by norm_num) (by norm_num),
   (risk_category_ladder_agrees (39999/100000)).2.2.2.2 (by norm_num)⟩

/-! ## Anomaly score normalization

Embedding of anomaly_score_to_probability (data_science/utils.py, lines
368-392).  A batch of raw detector scores is a list of rationals; the
numpy min and max over the batch are folds over the list. -/

/-- The numpy minimum of a score batch (scores.min() on a non-empty
array; 0 is returned for the empty list, which the source never
reaches). -/
def listMin : List ℚ → ℚ
  | [] => 0
  | h :: t => t.foldl min h

/-- The numpy maximum of a score batch. -/
def listMax : List ℚ → ℚ
  | [] => 0
  | h :: t => t.foldl max h

/-- anomaly_score_to_probability (data_science/utils.py): when all
scores coincide the zero vector is returned, otherwise each score s is
mapped to (max - s) / (max - min) and clipped into the unit interval. -/
def anomaly_score_to_probability (scores : List ℚ) : List ℚ :=
  if listMax scores = listMin scores then
    scores.map (fun _ => 0)
  else
    scores.map (fun s =>
      min 1 (max 0 ((listMax scores - s) / (listMax scores - listMin scores))))

theorem foldl_min_le_init (t : List ℚ) (a : ℚ) : t.foldl min a ≤ a := by
  induction t generalizing a with
  | nil => exact le_refl a
  | cons h tl ih => exact le_trans (ih (min a h)) (min_le_left a h)

theorem foldl_min_le_mem (t : List ℚ) (a x : ℚ) (hx : x ∈ t) : t.foldl min a ≤ x := by
  induction t generalizing a with
  | nil => cases hx
  | cons h tl ih =>
    obtain he | ht := List.mem_cons.mp hx
    · subst he
      exact le_trans (foldl_min_le_init tl (min a x)) (min_le_right a x)
    · exact ih (min a h) ht

theorem le_foldl_max_init (t : List ℚ) (a : ℚ) : a ≤ t.foldl max a := by
  induction t generalizing a with
  | nil => exact le_refl a
  | cons h tl ih => exact le_trans (le_max_left a h) (ih (max a h))

theorem le_foldl_max_mem (t : List ℚ) (a x : ℚ) (hx : x ∈ t) : x ≤ t.foldl max a := by
  induction t generalizing a with
  | nil => cases hx
  | cons h tl ih =>
    obtain he | ht := List.mem_cons.mp hx
    · subst he
      exact le_trans (le_max_right a x) (le_foldl_max_init tl (max a x))
    · exact ih (max a h) ht

theorem listMin_le_of_mem (l : List ℚ) (x : ℚ) (hx : x ∈ l) : listMin l ≤ x := by
  cases l with
  | nil => cases hx
  | cons h t =>
    obtain he | ht := List.mem_cons.mp hx
    · subst he
      exact foldl_min_le_init t x
    · exact foldl_min_le_mem t h x ht

theorem le_listMax_of_mem (l : List ℚ) (x : ℚ) (hx : x ∈ l) : x ≤ listMax l := by
  cases l with
  | nil => cases hx
  | cons h t =>
    obtain he | ht := List.mem_cons.mp hx
    · subst he
      exact le_foldl_max_init t x
    · exact le_foldl_max_mem t h x ht

theorem listMin_le_listMax (l : List ℚ) (hl : l ≠ []) : listMin l ≤ listMax l := by
  cases l with
  | nil => exact absurd rfl hl
  | cons h t =>
    exact le_trans (listMin_le_of_mem (h :: t) h (List.mem_cons_self h t))
      (le_listMax_of_mem (h :: t) h (List.mem_cons_self h t))

/-- C10: on a non-empty batch of raw scores, anomaly_score_to_probability
returns one value per score, each within the unit interval; when the
batch is not constant, the clipped inverted min-max formula is applied
pointwise, a score equal to the batch minimum is sent to 1 and a score
equal to the batch maximum to 0; and on a constant batch every output
is 0. -/
theorem anomaly_score_to_probability_spec (scores : List ℚ) (hne : scores ≠ []) :
    (anomaly_score_to_probability scores).length = scores.length ∧
    (∀ p ∈ anomaly_score_to_probability scores, 0 ≤ p ∧ p ≤ 1) ∧
    (listMax scores = listMin scores →
      ∀ p ∈ anomaly_score_to_probability scores, p = 0) ∧
    (listMax scores ≠ listMin scores →
      ∀ i (hi : i < scores.length) (hi2 : i < (anomaly_score_to_probability scores).length),
        (anomaly_score_to_probability scores).get ⟨i, hi2⟩ =
          min 1 (max 0 ((listMax scores - scores.get ⟨i, hi⟩) /
            (listMax scores - listMin scores))) ∧
        (scores.get ⟨i, hi⟩ = listMin scores →
          (anomaly_score_to_probability scores).get ⟨i, hi2⟩ = 1) ∧
        (scores.get ⟨i, hi⟩ = listMax scores →
          (anomaly_score_to_probability scores).get ⟨i, hi2⟩ = 0)) := by
  refine ⟨?_, ?_, ?_, ?_⟩
  · unfold anomaly_score_to_probability
    split <;> simp
  · intro p hp
    unfold anomaly_score_to_probability at hp
    split at hp
    · rcases List.mem_map.mp hp with ⟨s, _, rfl⟩
      exact ⟨le_refl 0, by norm_num⟩
    · rcases List.mem_map.mp hp with ⟨s, _, rfl⟩
      constructor
      · exact le_min (by norm_num) (le_max_left 0 _)
      · exact min_le_left 1 _
  · intro heq p hp
    unfold anomaly_score_to_probability at hp
    rw [if_pos heq] at hp
    rcases List.mem_map.mp hp with ⟨s, _, rfl⟩
    rfl
  · intro hneq i hi hi2
    have hlt : listMin scores < listMax scores :=
      lt_of_le_of_ne (listMin_le_listMax scores hne) (fun h => hneq h.symm)
    have hpos : 0 < listMax scores - listMin scores := by linarith
    have hget : (anomaly_score_to_probability scores).get ⟨i, hi2⟩ =
        min 1 (max 0 ((listMax scores - scores.get ⟨i, hi⟩) /
          (listMax scores - listMin scores))) := by
      unfold anomaly_score_to_probability
      simp only [if_neg hneq, List.get_eq_getElem, List.getElem_map]
    refine ⟨hget, ?_, ?_⟩
    · intro hmin
      rw [hget, hmin]
      rw [div_self (ne_of_gt hpos)]
      norm_num
    · intro hmax
      rw [hget, hmax]
      simp

/-- Witness for C10 on the concrete batch [3, 1]: the batch minimum 1
(at index 1) is mapped to 1 and the batch maximum 3 (at index 0) to 0,
and both outputs lie in the unit interval. -/
theorem anomaly_score_to_probability_witness :
    (anomaly_score_to_probability [(3 : ℚ), 1]).get ⟨1, by decide⟩ = 1 ∧
    (anomaly_score_to_probability [(3 : ℚ), 1]).get ⟨0, by decide⟩ = 0 ∧
    (0 : ℚ) ≤ (anomaly_score_to_probability [(3 : ℚ), 1]).get ⟨0, by decide⟩ := by
  have h := anomaly_score_to_probability_spec [(3 : ℚ), 1] (by decide)
  refine ⟨(h.2.2.2 (by decide) 1 (by decide) (by decide)).2.1 (by decide),
          (h.2.2.2 (by decide) 0 (by decide) (by decide)).2.2 (by decide), ?_⟩
  exact (h.2.1 _ (List.get_mem _ _ _)).1

/-! ## Ensemble combination

Embedding of FraudDetector._compute_ensemble_score
(data_science/fraud_model.py, lines 357-399).  A scores DataFrame with
n wallet rows is modelled by the three per-model signal columns, each
either present (a function from row index to value) or absent, exactly
as predict adds a column per trained detector. -/

/-- The per-model signal columns of the scores DataFrame handed to
_compute_ensemble_score: each column is present exactly when the
corresponding detector produced it in predict. -/
structure ScoresDf (n : ℕ) where
  isolation_forest_score : Option (Fin n → ℚ)
  lof_score : Option (Fin n → ℚ)
  dbscan_is_noise : Option (Fin n → ℚ)

/-- The score_columns / weights lists built by _compute_ensemble_score:
isolation 0.5, lof 0.3, dbscan 0.2, appended in source order for the
columns that are present. -/
def scoreColumnsWeights {n : ℕ} (df : ScoresDf n) : List ((Fin n → ℚ) × ℚ) :=
  (match df.isolation_forest_score with
    | some c => [(c, 1/2)]
    | none => []) ++
  (match df.lof_score with
    | some c => [(c, 3/10)]
    | none => []) ++
  (match df.dbscan_is_noise with
    | some c => [(c, 1/5)]
    | none => [])

/-- _compute_ensemble_score: when some signal column is present, the
weights are renormalized to sum to 1 and the fraud score is the
weighted sum of the present columns; otherwise the source falls back to
the isolation column if present (dead code, since that column would
have been collected) and else to the constant 0. -/
def compute_ensemble_score {n : ℕ} (df : ScoresDf n) : Fin n → ℚ :=
  let cols := scoreColumnsWeights df
  if cols ≠ [] then
    let total := (cols.map Prod.snd).sum
    fun i => (cols.map (fun p => p.1 i * (p.2 / total))).sum
  else
    match df.isolation_forest_score with
    | some c => c
    | none => fun _ => 0

/-- The weight a signal contributes before renormalization: its fixed
relative weight when the column is present, 0 otherwise. -/
def presentWeight {n : ℕ} (o : Option (Fin n → ℚ)) (w : ℚ) : ℚ :=
  if o.isSome then w else 0

/-- The value of an optional signal column at a row, 0 when absent. -/
def signalAt {n : ℕ} (o : Option (Fin n → ℚ)) (i : Fin n) : ℚ :=
  match o with
  | some c => c i
  | none => 0

/-- The ensemble combination as the spec words it: the weighted average
of whichever of the three signals are present, relative weights
0.5, 0.3 and 0.2 renormalized over the present signals, and 0 when no
signal is present. -/
def ensembleSpec {n : ℕ} (df : ScoresDf n) (i : Fin n) : ℚ :=
  let tw := presentWeight df.isolation_forest_score (1/2) +
    presentWeight df.lof_score (3/10) + presentWeight df.dbscan_is_noise (1/5)
  if tw = 0 then 0
  else
    (presentWeight df.isolation_forest_score (1/2) * signalAt df.isolation_forest_score i +
     presentWeight df.lof_score (3/10) * signalAt df.lof_score i +
     presentWeight df.dbscan_is_noise (1/5) * signalAt df.dbscan_is_noise i) / tw

/-- C2: at every wallet row, the ensemble fraud score computed by
_compute_ensemble_score equals the weighted average of the present
signals with relative weights 0.5, 0.3, 0.2 renormalized over the
present signals; in particular, when only the isolation signal is
present the fraud score equals the isolation probability exactly, and
when no signal is present it is 0 (and the computation is total, so it
never fails). -/
theorem compute_ensemble_score_spec {n : ℕ} (df : ScoresDf n) (i : Fin n) :
    compute_ensemble_score df i = ensembleSpec df i ∧
    (df.lof_score = none → df.dbscan_is_noise = none →
      ∀ c, df.isolation_forest_score = some c → compute_ensemble_score df i = c i) ∧
    (df.isolation_forest_score = none → df.lof_score = none →
      df.dbscan_is_noise = none → compute_ensemble_score df i = 0) := by
  obtain ⟨iso, lof, db⟩ := df
  refine ⟨?_, ?_, ?_⟩
  · rcases iso with _ | ci <;> rcases lof with _ | cl <;> rcases db with _ | cd <;>
      simp only [compute_ensemble_score, scoreColumnsWeights, ensembleSpec,
        presentWeight, signalAt, Option.isSome_none, Option.isSome_some,
        List.nil_append, List.append_nil, List.cons_append, List.map_cons,
        List.map_nil, List.sum_cons, List.sum_nil, ite_true, ite_false,
        ne_eq, reduceCtorEq, not_false_eq_true, not_true_eq_false] <;>
      norm_num <;> ring
  · rintro rfl rfl c rfl
    simp only [compute_ensemble_score, scoreColumnsWeights,
      List.nil_append, List.append_nil, List.map_cons, List.map_nil,
      List.sum_cons, List.sum_nil, ne_eq, reduceCtorEq, not_false_eq_true,
      ite_true]
    norm_num
  · rintro rfl rfl rfl
    rfl

/-- Witness for C2: with only the isolation column present on a
one-row DataFrame, the ensemble score equals the isolation probability
exactly; with no column present it is 0. -/
theorem compute_ensemble_score_witness :
    compute_ensemble_score
      (⟨some (fun _ => 33/100), none, none⟩ : ScoresDf 1) ⟨0, by norm_num⟩ = 33/100 ∧
    compute_ensemble_score (⟨none, none, none⟩ : ScoresDf 1) ⟨0, by norm_num⟩ = 0 :=
  ⟨(compute_ensemble_score_spec (⟨some (fun _ => 33/100), none, none⟩ : ScoresDf 1)
      ⟨0, by norm_num⟩).2.1 rfl rfl _ rfl,
   (compute_ensemble_score_spec (⟨none, none, none⟩ : ScoresDf 1)
      ⟨0, by norm_num⟩).2.2 rfl rfl rfl⟩

/-! ## Fit control flow

Embedding of FraudDetector.fit (data_science/fraud_model.py, lines
170-245) at the level of row counts and failure propagation.  The
repository defines no error taxonomy of its own: every failure fit can
produce comes out of the numeric library.  Errors are modelled
explicitly so that the kind of each failure is statable; the sklearn
steps are modelled from their documented behavior (a scaler or detector
fit raises ValueError on an empty matrix, train_test_split raises when
a split would be empty, and LocalOutlierFactor merely warns and lowers
the effective neighbor count when given fewer samples than its
configured n_neighbors = 20).  Detector training outcomes are passed to
fit as functions of the sample count, so that hypothetical training
failures of a single family can be examined against the control flow,
which contains no exception handling. -/

/-- Failure kinds observable from the fit path.  valueError models a
ValueError raised by the numeric library; insufficientData is the
distinguished kind named by the spec taxonomy (the embedded code never
produces it, which is exactly what is at issue in C3); trainingError is
an abstract per-detector training failure used to probe propagation. -/
inductive PyError where
  | valueError (msg : String)
  | insufficientData (msg : String)
  | trainingError (msg : String)
deriving DecidableEq, Repr

/-- True exactly on a successful result. -/
def exceptIsOk {ε α : Type} : Except ε α → Bool
  | .ok _ => true
  | .error _ => false

/-- True exactly when the result is an insufficientData failure. -/
def isInsufficientDataError {α : Type} : Except PyError α → Bool
  | .error (.insufficientData _) => true
  | _ => false

/-- StandardScaler.fit_transform on an n-row matrix: raises ValueError
when the matrix has no rows, otherwise returns the row count. -/
def standardScaler_fit_transform (n_rows : ℕ) : Except PyError ℕ :=
  if n_rows = 0 then .error (.valueError "Found array with 0 samples")
  else .ok n_rows

/-- prepare_features (fraud_model.py, lines 128-164): the median fill
and infinity replacement are total; the scaler fit is the only failing
step. -/
def prepare_features (n_rows : ℕ) : Except PyError ℕ :=
  standardScaler_fit_transform n_rows

/-- sklearn train_test_split with the configured test_size = 0.2: the
test side gets the ceiling of a fifth of the rows, and a ValueError is
raised when either side would be empty.  Returns (train, test) sizes. -/
def train_test_split (n : ℕ) : Except PyError (ℕ × ℕ) :=
  if (n + 4) / 5 = 0 ∨ n - (n + 4) / 5 = 0 then
    .error (.valueError "train_test_split would produce an empty split")
  else .ok (n - (n + 4) / 5, (n + 4) / 5)

/-- IsolationForest.fit: fails only on an empty training matrix. -/
def sklearn_isolationForest_fit (n_train : ℕ) : Except PyError Unit :=
  if n_train = 0 then .error (.valueError "Found array with 0 samples")
  else .ok ()

/-- LocalOutlierFactor.fit: on fewer samples than the configured
n_neighbors = 20 sklearn warns and lowers the effective neighbor count,
it does not raise; only an empty matrix fails. -/
def sklearn_lof_fit (n : ℕ) : Except PyError Unit :=
  if n = 0 then .error (.valueError "Found array with 0 samples")
  else .ok ()

/-- DBSCAN.fit: fails only on an empty matrix. -/
def sklearn_dbscan_fit (n_train : ℕ) : Except PyError Unit :=
  if n_train = 0 then .error (.valueError "Found array with 0 samples")
  else .ok ()

/-- The training metadata record fit returns on success. -/
structure FitMetadata where
  model_type : String
  training_samples : ℕ
  n_train : ℕ
  n_test : ℕ
  trained_isolation : Bool
  trained_lof : Bool
  trained_dbscan : Bool
deriving DecidableEq, Repr

namespace FraudDetector

/-- FraudDetector.fit (fraud_model.py, lines 170-245): prepare and
scale the features, split train/test, then train each selected family
in source order — isolation and DBSCAN on the train split, LOF on the
full matrix.  There is no try/except anywhere in this path: any step
that raises propagates to the caller. -/
def fit (n_rows : ℕ) (model_type : String)
    (iso_fit lofFit db_fit : ℕ → Except PyError Unit) :
    Except PyError FitMetadata := do
  let n ← prepare_features n_rows
  let split ← train_test_split n
  let trained_iso ←
    if model_type = "isolation_forest" ∨ model_type = "ensemble" then
      iso_fit split.1 >>= fun _ => pure true
    else pure false
  let trained_lof ←
    if model_type = "lof" ∨ model_type = "ensemble" then
      lofFit n >>= fun _ => pure true
    else pure false
  let trained_db ←
    if model_type = "dbscan" ∨ model_type = "ensemble" then
      db_fit split.1 >>= fun _ => pure true
    else pure false
  pure { model_type := model_type, training_samples := n_rows,
         n_train := split.1, n_test := split.2,
         trained_isolation := trained_iso, trained_lof := trained_lof,
         trained_dbscan := trained_db }

end FraudDetector

theorem train_test_split_ok (n : ℕ) (hn : 2 ≤ n) :
    train_test_split n = .ok (n - (n + 4) / 5, (n + 4) / 5) := by
  unfold train_test_split
  rw [if_neg]
  push_neg
  have h1 : 1 ≤ (n + 4) / 5 := (Nat.one_le_div_iff (by norm_num)).mpr (by omega)
  have h2 : (n + 4) / 5 < n := by
    rw [Nat.div_lt_iff_lt_mul (by norm_num : 0 < 5)]
    omega
  omega

/-- C3 counterexample: with the sklearn step semantics, fit on 10 rows
in ensemble mode — fewer rows than the configured LOF neighbor count of
20 — succeeds outright instead of raising InsufficientData, and fit on
an empty table raises the scaler ValueError, which is not an
InsufficientData kind. -/
theorem fit_insufficient_data_counterexample :
    exceptIsOk (FraudDetector.fit 10 "ensemble" sklearn_isolationForest_fit
      sklearn_lof_fit sklearn_dbscan_fit) = true ∧
    FraudDetector.fit 0 "ensemble" sklearn_isolationForest_fit
      sklearn_lof_fit sklearn_dbscan_fit
      = .error (.valueError "Found array with 0 samples") ∧
    isInsufficientDataError (FraudDetector.fit 0 "ensemble"
      sklearn_isolationForest_fit sklearn_lof_fit sklearn_dbscan_fit) = false := by
  refine ⟨rfl, rfl, rfl⟩

/-- C3 amended: fit on an empty feature table fails — with the generic
scaler ValueError, since the code has no InsufficientData kind — so it
never silently proceeds to a zero-row score table; but with fewer rows
than a selected detector requires (the LOF neighbor count) and at least
2 rows, fit does not fail at all: the library adjusts and training
proceeds. -/
theorem fit_empty_fails_small_succeeds (n : ℕ) (model_type : String) (hn : 2 ≤ n) :
    exceptIsOk (FraudDetector.fit 0 model_type sklearn_isolationForest_fit
      sklearn_lof_fit sklearn_dbscan_fit) = false ∧
    isInsufficientDataError (FraudDetector.fit 0 model_type
      sklearn_isolationForest_fit sklearn_lof_fit sklearn_dbscan_fit) = false ∧
    exceptIsOk (FraudDetector.fit n "ensemble" sklearn_isolationForest_fit
      sklearn_lof_fit sklearn_dbscan_fit) = true := by
  have h0 : n ≠ 0 := by omega
  have htr : n - (n + 4) / 5 ≠ 0 := by
    have h2 : (n + 4) / 5 < n := by
      rw [Nat.div_lt_iff_lt_mul (by norm_num : 0 < 5)]
      omega
    omega
  refine ⟨rfl, rfl, ?_⟩
  simp [FraudDetector.fit, prepare_features, standardScaler_fit_transform, h0,
    train_test_split_ok n hn, sklearn_isolationForest_fit, sklearn_lof_fit,
    sklearn_dbscan_fit, htr, exceptIsOk, bind, Except.bind, pure, Except.pure]

/-- Witness for C3 amended at 2 rows and the lof family. -/
theorem fit_empty_fails_small_succeeds_witness :
    exceptIsOk (FraudDetector.fit 0 "lof" sklearn_isolationForest_fit
      sklearn_lof_fit sklearn_dbscan_fit) = false ∧
    isInsufficientDataError (FraudDetector.fit 0 "lof"
      sklearn_isolationForest_fit sklearn_lof_fit sklearn_dbscan_fit) = false ∧
    exceptIsOk (FraudDetector.fit 2 "ensemble" sklearn_isolationForest_fit
      sklearn_lof_fit sklearn_dbscan_fit) = true :=
  fit_empty_fails_small_succeeds 2 "lof" (by norm_num)

/-- A detector family whose training raises, used to probe whether
ensemble-mode fit absorbs a per-family failure. -/
def lof_training_failure : ℕ → Except PyError Unit :=
  fun _ => .error (.trainingError "LOF training raised")

/-- C4 counterexample: an ensemble fit on 100 rows in which the LOF
family training raises returns that very error: the failure is not
caught and logged, the remaining family is not trained, and no training
metadata (hence no reduced-signal combination) is produced. -/
theorem fit_ensemble_no_catch_counterexample :
    FraudDetector.fit 100 "ensemble" sklearn_isolationForest_fit
      lof_training_failure sklearn_dbscan_fit
      = .error (.trainingError "LOF training raised") := by
  rfl

/-- C4 amended: in ensemble mode a failure while training any one
detector family propagates out of fit unchanged — whichever family
fails, fit returns that error and the families after it are never
trained; nothing is caught, logged or degraded. -/
theorem fit_ensemble_failure_propagates (n : ℕ) (hn : 2 ≤ n) (e : PyError)
    (lofF dbF : ℕ → Except PyError Unit) :
    FraudDetector.fit n "ensemble" (fun _ => .error e) lofF dbF = .error e ∧
    FraudDetector.fit n "ensemble" sklearn_isolationForest_fit
      (fun _ => .error e) dbF = .error e ∧
    FraudDetector.fit n "ensemble" sklearn_isolationForest_fit
      sklearn_lof_fit (fun _ => .error e) = .error e := by
  have h0 : n ≠ 0 := by omega
  have htr : n - (n + 4) / 5 ≠ 0 := by
    have h2 : (n + 4) / 5 < n := by
      rw [Nat.div_lt_iff_lt_mul (by norm_num : 0 < 5)]
      omega
    omega
  refine ⟨?_, ?_, ?_⟩ <;>
    simp [FraudDetector.fit, prepare_features, standardScaler_fit_transform, h0,
      train_test_split_ok n hn, sklearn_isolationForest_fit, sklearn_lof_fit,
      htr, bind, Except.bind, pure, Except.pure]

/-- Witness for C4 amended at 5 rows with a concrete training error. -/
theorem fit_ensemble_failure_propagates_witness :
    FraudDetector.fit 5 "ensemble" (fun _ => .error (.trainingError "boom"))
      sklearn_lof_fit sklearn_dbscan_fit = .error (.trainingError "boom") ∧
    FraudDetector.fit 5 "ensemble" sklearn_isolationForest_fit
      (fun _ => .error (.trainingError "boom")) sklearn_dbscan_fit
      = .error (.trainingError "boom") ∧
    FraudDetector.fit 5 "ensemble" sklearn_isolationForest_fit
      sklearn_lof_fit (fun _ => .error (.trainingError "boom"))
      = .error (.trainingError "boom") :=
  fit_ensemble_failure_propagates 5 (by norm_num) (.trainingError "boom")
    sklearn_lof_fit sklearn_dbscan_fit

/-! ## Feature engineering: the two-sided ledger view

Embedding of the wallet_transactions common table expression shared by
the three queries of FeatureEngineer (data_science/
feature_engineering.py): every ledger transaction with a non-null
sender yields an outflow event for the sender, and every transaction
with a non-null receiver yields an inflow event for the receiver; the
counterparty of an event is the opposite address and may be null
(contract creation).  Timestamps are seconds; values are rationals. -/

/-- A raw ledger transaction (external input).  to_address is null only
for contract creation; from_address is nullable in the schema and the
queries filter on it being present. -/
structure Transaction where
  from_address : Option String
  to_address : Option String
  value_eth : ℚ
  gas_price : ℚ
  gas_used : ℚ
  transaction_timestamp : ℤ
deriving DecidableEq, Repr

/-- Direction tag of a directional event. -/
inductive Direction where
  | dIn
  | dOut
deriving DecidableEq, Repr

/-- One directional event of the doubled wallet perspective view. -/
structure WalletEvent where
  wallet_address : String
  value_eth : ℚ
  gas_price : ℚ
  gas_used : ℚ
  counterparty : Option String
  block_timestamp : ℤ
  direction : Direction
deriving DecidableEq, Repr

/-- The wallet_transactions view: out events for the senders (rows with
from_address present), then in events for the receivers (rows with
to_address present), exactly the UNION ALL of the source queries. -/
def wallet_transactions (txs : List Transaction) : List WalletEvent :=
  (txs.filterMap fun t => t.from_address.map fun fa =>
    ⟨fa, t.value_eth, t.gas_price, t.gas_used, t.to_address,
      t.transaction_timestamp, Direction.dOut⟩) ++
  (txs.filterMap fun t => t.to_address.map fun ta =>
    ⟨ta, t.value_eth, t.gas_price, t.gas_used, t.from_address,
      t.transaction_timestamp, Direction.dIn⟩)

/-- CONFIG.features.min_transactions (data_science/config.py, line 47). -/
def min_transactions : ℕ := 2

/-- The events grouped under one wallet address. -/
def eventsOf (evs : List WalletEvent) (w : String) : List WalletEvent :=
  evs.filter (fun e => decide (e.wallet_address = w))

/-- BigQuery SAFE_DIVIDE: null on a zero divisor. -/
def safe_divide (a b : ℚ) : Option ℚ :=
  if b = 0 then none else some (a / b)

/-- One row of the basic features query (feature_engineering.py, lines
68-167).  The value-statistics and gas columns not used by any claim
are omitted (std_value in particular is a square root, which leaves the
rationals); the columns below are embedded exactly as aggregated. -/
structure BasicFeatures where
  wallet_address : String
  tx_count : ℕ
  tx_count_in : ℕ
  tx_count_out : ℕ
  total_value : ℚ
  total_value_in : ℚ
  total_value_out : ℚ
  unique_counterparties : ℕ
  in_out_ratio : Option ℚ
  net_flow : ℚ
deriving DecidableEq, Repr

/-- The basic aggregates of one wallet over the doubled view:
COUNT(*), COUNTIF per direction, SUMs, COUNT(DISTINCT counterparty)
— which, as in SQL, ignores null counterparties — and the derived
SAFE_DIVIDE ratio and net flow. -/
def basicRow (evs : List WalletEvent) (w : String) : BasicFeatures :=
  let es := eventsOf evs w
  { wallet_address := w
    tx_count := es.length
    tx_count_in := es.countP (fun e => decide (e.direction = Direction.dIn))
    tx_count_out := es.countP (fun e => decide (e.direction = Direction.dOut))
    total_value := (es.map (·.value_eth)).sum
    total_value_in :=
      (es.map (fun e => if e.direction = Direction.dIn then e.value_eth else 0)).sum
    total_value_out :=
      (es.map (fun e => if e.direction = Direction.dOut then e.value_eth else 0)).sum
    unique_counterparties := ((es.filterMap (·.counterparty)).dedup).length
    in_out_ratio :=
      safe_divide (es.countP (fun e => decide (e.direction = Direction.dIn)) : ℚ)
        (es.countP (fun e => decide (e.direction = Direction.dOut)) : ℚ)
    net_flow :=
      (es.map (fun e => if e.direction = Direction.dIn then e.value_eth else 0)).sum -
      (es.map (fun e => if e.direction = Direction.dOut then e.value_eth else 0)).sum }

/-- The basic features query: one row per distinct wallet of the view
whose event count meets min_transactions (the HAVING clause). -/
def basic_features (txs : List Transaction) : List BasicFeatures :=
  let evs := wallet_transactions txs
  (((evs.map (·.wallet_address)).dedup).filter
    (fun w => decide (min_transactions ≤ (eventsOf evs w).length))).map (basicRow evs)

theorem length_eq_countP_in_add_out (l : List WalletEvent) :
    l.length = l.countP (fun e => decide (e.direction = Direction.dIn)) +
      l.countP (fun e => decide (e.direction = Direction.dOut)) := by
  induction l with
  | nil => rfl
  | cons e t ih =>
    rcases hd : e.direction <;>
      simp [List.countP_cons, hd, ih] <;> omega

/-- C5: in every row of the basic features output, tx_count equals
tx_count_in plus tx_count_out exactly — the total event count of the
wallet in the two-sided view splits into the inflow count and the
outflow count. -/
theorem tx_count_splits (txs : List Transaction) (r : BasicFeatures)
    (hr : r ∈ basic_features txs) :
    r.tx_count = r.tx_count_in + r.tx_count_out := by
  unfold basic_features at hr
  rcases List.mem_map.mp hr with ⟨w, _, rfl⟩
  simpa [basicRow] using
    length_eq_countP_in_add_out (eventsOf (wallet_transactions txs) w)

/-- The qualifying-wallet scenario ledger from the spec: A sends 10 to
B once, B sends 1 to C twice. -/
def demoLedger : List Transaction :=
  [⟨some "0xA", some "0xB", 10, 1, 21000, 0⟩,
   ⟨some "0xB", some "0xC", 1, 1, 21000, 3600⟩,
   ⟨some "0xB", some "0xC", 1, 1, 21000, 7200⟩]

/-- Witness for C5 on the wallet B row of the scenario ledger (3 events:
1 in, 2 out). -/
theorem tx_count_splits_witness :
    (basicRow (wallet_transactions demoLedger) "0xB").tx_count =
      (basicRow (wallet_transactions demoLedger) "0xB").tx_count_in +
      (basicRow (wallet_transactions demoLedger) "0xB").tx_count_out :=
  tx_count_splits demoLedger _
    (List.mem_map_of_mem (basicRow (wallet_transactions demoLedger)) (by decide))

/-! ## Behavioral features

Embedding of the behavioral query (feature_engineering.py, lines
169-252): counterparty_stats groups the events of a wallet by
counterparty — in SQL a null counterparty forms a group of its own —
and counterparty_concentration is the largest group count divided by
the sum of the group counts.  unique_counterparties, by contrast, is a
COUNT(DISTINCT ...) in the basic query and ignores nulls. -/

/-- The counterparty key of each event of a wallet. -/
def counterpartyKeys (es : List WalletEvent) : List (Option String) :=
  es.map (·.counterparty)

/-- The counterparty_stats group sizes of one wallet: one count per
distinct counterparty key, null included. -/
def counterpartyGroupCounts (es : List WalletEvent) : List ℕ :=
  (counterpartyKeys es).dedup.map (fun c => (counterpartyKeys es).count c)

/-- SQL MAX over a list of counts. -/
def natListMax (l : List ℕ) : ℕ := l.foldr max 0

/-- One row of the behavioral query; only the column a claim is about
is embedded. -/
structure BehavioralFeatures where
  wallet_address : String
  counterparty_concentration : ℚ
deriving DecidableEq, Repr

/-- MAX(tx_with_counterparty) / SUM(tx_with_counterparty) for one
wallet. -/
def behavioralRow (evs : List WalletEvent) (w : String) : BehavioralFeatures :=
  { wallet_address := w
    counterparty_concentration :=
      (natListMax (counterpartyGroupCounts (eventsOf evs w)) : ℚ) /
        ((counterpartyGroupCounts (eventsOf evs w)).sum : ℚ) }

/-- The behavioral query: its row universe is counterparty_features,
grouped over every wallet of the view with no HAVING clause. -/
def behavioral_features (txs : List Transaction) : List BehavioralFeatures :=
  let evs := wallet_transactions txs
  ((evs.map (·.wallet_address)).dedup).map (behavioralRow evs)

theorem natListMax_le_sum (l : List ℕ) : natListMax l ≤ l.sum := by
  induction l with
  | nil => exact le_refl 0
  | cons h t ih =>
    have hs : (h :: t).sum = h + t.sum := by simp
    have hm : natListMax (h :: t) = max h (natListMax t) := rfl
    rw [hm, hs]
    exact Nat.max_le.mpr ⟨Nat.le_add_right h t.sum, le_trans ih (Nat.le_add_left t.sum h)⟩

theorem natListMax_lt_sum_of_two (l : List ℕ) (hlen : 2 ≤ l.length)
    (hpos : ∀ x ∈ l, 1 ≤ x) : natListMax l < l.sum := by
  match l with
  | a :: b :: t =>
    have ha : 1 ≤ a := hpos a (by simp)
    have hb : 1 ≤ b := hpos b (by simp)
    have h1 : natListMax (b :: t) ≤ (b :: t).sum := natListMax_le_sum (b :: t)
    have h2 : (b :: t).sum = b + t.sum := by simp
    show max a (natListMax (b :: t)) < a + (b :: t).sum
    exact Nat.max_lt.mpr ⟨by omega, by omega⟩

theorem groupCounts_pos (es : List WalletEvent) :
    ∀ x ∈ counterpartyGroupCounts es, 1 ≤ x := by
  intro x hx
  rcases List.mem_map.mp hx with ⟨c, hc, rfl⟩
  exact List.count_pos_iff.mpr (List.mem_dedup.mp hc)

theorem count_beq_eq_count_deq (c : Option String) (l : List (Option String)) :
    l.count c = @List.count (Option String) instBEqOfDecidableEq c l := by
  induction l with
  | nil => rfl
  | cons x t ih => simp [List.count_cons, ih, beq_iff_eq]

theorem groupCounts_sum (es : List WalletEvent) :
    (counterpartyGroupCounts es).sum = (counterpartyKeys es).length := by
  unfold counterpartyGroupCounts
  simp only [count_beq_eq_count_deq]
  exact List.sum_map_count_dedup_eq_length (counterpartyKeys es)

theorem nodup_all_eq_length_le_one {α : Type} (m : List α) (a : α)
    (hn : m.Nodup) (h : ∀ x ∈ m, x = a) : m.length ≤ 1 := by
  match m with
  | [] => simp
  | [x] => simp
  | x :: y :: t =>
    exfalso
    have hx : x = a := h x (by simp)
    have hy : y = a := h y (by simp)
    have : x ∉ y :: t := (List.nodup_cons.mp hn).1
    exact this (by simp [hx, hy])

theorem dedup_length_le_one_of_all_eq {α : Type} [DecidableEq α]
    (l : List α) (a : α) (h : ∀ x ∈ l, x = a) : l.dedup.length ≤ 1 :=
  nodup_all_eq_length_le_one l.dedup a (List.nodup_dedup l)
    (fun x hx => h x (List.mem_dedup.mp hx))

/-- C6 amended: counterparty_concentration always lies in the unit
interval, but concentration 1 pins unique_counterparties to at most 1
rather than exactly 1: a wallet whose events all share one counterparty
key has concentration 1, and when that shared key is the null
counterparty (contract creations), unique_counterparties — which
ignores nulls — is 0. -/
theorem counterparty_concentration_bounds (txs : List Transaction)
    (b : BehavioralFeatures) (hb : b ∈ behavioral_features txs) :
    0 ≤ b.counterparty_concentration ∧ b.counterparty_concentration ≤ 1 ∧
    (b.counterparty_concentration = 1 →
      (basicRow (wallet_transactions txs) b.wallet_address).unique_counterparties ≤ 1) := by
  unfold behavioral_features at hb
  rcases List.mem_map.mp hb with ⟨w, hw, rfl⟩
  have hwmem : w ∈ (wallet_transactions txs).map (·.wallet_address) :=
    List.mem_dedup.mp hw
  rcases List.mem_map.mp hwmem with ⟨e, he, hew⟩
  have hein : e ∈ eventsOf (wallet_transactions txs) w :=
    List.mem_filter.mpr ⟨he, by simp [hew]⟩
  have hkeys : e.counterparty ∈ counterpartyKeys (eventsOf (wallet_transactions txs) w) :=
    List.mem_map_of_mem _ hein
  have hsum : (counterpartyGroupCounts (eventsOf (wallet_transactions txs) w)).sum =
      (counterpartyKeys (eventsOf (wallet_transactions txs) w)).length :=
    groupCounts_sum _
  have hlenpos : 0 < (counterpartyKeys (eventsOf (wallet_transactions txs) w)).length :=
    List.length_pos.mpr (List.ne_nil_of_mem hkeys)
  have hsumpos : 0 < (counterpartyGroupCounts (eventsOf (wallet_transactions txs) w)).sum := by
    omega
  have hmax_le : natListMax (counterpartyGroupCounts (eventsOf (wallet_transactions txs) w)) ≤
      (counterpartyGroupCounts (eventsOf (wallet_transactions txs) w)).sum :=
    natListMax_le_sum _
  have hcastpos : (0 : ℚ) <
      ((counterpartyGroupCounts (eventsOf (wallet_transactions txs) w)).sum : ℚ) := by
    exact_mod_cast hsumpos
  refine ⟨?_, ?_, ?_⟩
  · exact div_nonneg (Nat.cast_nonneg _) (Nat.cast_nonneg _)
  · exact (div_le_one hcastpos).mpr (by exact_mod_cast hmax_le)
  · intro h1
    have heq : (natListMax (counterpartyGroupCounts (eventsOf (wallet_transactions txs) w)) : ℚ) =
        ((counterpartyGroupCounts (eventsOf (wallet_transactions txs) w)).sum : ℚ) := by
      have := (div_eq_one_iff_eq (ne_of_gt hcastpos)).mp h1
      exact_mod_cast this
    have hms : natListMax (counterpartyGroupCounts (eventsOf (wallet_transactions txs) w)) =
        (counterpartyGroupCounts (eventsOf (wallet_transactions txs) w)).sum := by
      exact_mod_cast heq
    have hded : (counterpartyKeys (eventsOf (wallet_transactions txs) w)).dedup.length ≤ 1 := by
      by_contra hcon
      push_neg at hcon
      have h2 : 2 ≤ (counterpartyGroupCounts (eventsOf (wallet_transactions txs) w)).length := by
        have : (counterpartyGroupCounts (eventsOf (wallet_transactions txs) w)).length =
            (counterpartyKeys (eventsOf (wallet_transactions txs) w)).dedup.length := by
          simp [counterpartyGroupCounts]
        omega
      exact absurd hms
        (Nat.ne_of_lt (natListMax_lt_sum_of_two _ h2 (groupCounts_pos _)))
    show ((((eventsOf (wallet_transactions txs) w).filterMap (·.counterparty)).dedup).length) ≤ 1
    have hfm : (eventsOf (wallet_transactions txs) w).filterMap (·.counterparty) =
        (counterpartyKeys (eventsOf (wallet_transactions txs) w)).filterMap id := by
      simp [counterpartyKeys, List.filterMap_map]
    rw [hfm]
    rcases hdd : (counterpartyKeys (eventsOf (wallet_transactions txs) w)).dedup with _ | ⟨k, rest⟩
    · have : counterpartyKeys (eventsOf (wallet_transactions txs) w) = [] :=
        (List.dedup_eq_nil _).mp hdd
      simp [this]
    · have hrest : rest = [] := by
        have := hded
        rw [hdd] at this
        simpa using this
      subst hrest
      have hallk : ∀ x ∈ counterpartyKeys (eventsOf (wallet_transactions txs) w), x = k := by
        intro x hx
        have : x ∈ (counterpartyKeys (eventsOf (wallet_transactions txs) w)).dedup :=
          List.mem_dedup.mpr hx
        rw [hdd] at this
        simpa using this
      match k with
      | none =>
        have hempty : (counterpartyKeys (eventsOf (wallet_transactions txs) w)).filterMap id = [] := by
          rw [List.eq_nil_iff_forall_not_mem]
          intro a ha
          rcases List.mem_filterMap.mp ha with ⟨o, ho, hoa⟩
          have := hallk o ho
          subst this
          cases hoa
        simp [hempty]
      | some q =>
        apply dedup_length_le_one_of_all_eq _ q
        intro x hx
        rcases List.mem_filterMap.mp hx with ⟨o, ho, hoa⟩
        have := hallk o ho
        subst this
        cases hoa
        rfl

/-- A ledger in which every transaction of wallet A is a contract
creation (null receiver). -/
def contractCreationLedger : List Transaction :=
  [⟨some "0xA", none, 0, 1, 53000, 0⟩,
   ⟨some "0xA", none, 0, 1, 53000, 60⟩]

/-- C6 counterexample: wallet A qualifies for the feature table (2
events) and its events all carry the null counterparty key, so its
counterparty_concentration is exactly 1 while unique_counterparties is
0, not 1 — refuting that concentration 1 occurs only with exactly one
distinct counterparty. -/
theorem counterparty_concentration_counterexample :
    (behavioralRow (wallet_transactions contractCreationLedger)
      "0xA").counterparty_concentration = 1 ∧
    (basicRow (wallet_transactions contractCreationLedger)
      "0xA").unique_counterparties = 0 ∧
    behavioralRow (wallet_transactions contractCreationLedger) "0xA" ∈
      behavioral_features contractCreationLedger ∧
    basicRow (wallet_transactions contractCreationLedger) "0xA" ∈
      basic_features contractCreationLedger := by
  refine ⟨?_, by decide, List.mem_map_of_mem _ (by decide),
    List.mem_map_of_mem _ (by decide)⟩
  have h : counterpartyGroupCounts
      (eventsOf (wallet_transactions contractCreationLedger) "0xA") = [2] := by
    decide
  simp [behavioralRow, h, natListMax]

/-- Witness for C6 amended on the wallet B row of the scenario ledger. -/
theorem counterparty_concentration_bounds_witness :
    0 ≤ (behavioralRow (wallet_transactions demoLedger)
      "0xB").counterparty_concentration ∧
    (behavioralRow (wallet_transactions demoLedger)
      "0xB").counterparty_concentration ≤ 1 :=
  ⟨(counterparty_concentration_bounds demoLedger _
      (List.mem_map_of_mem _ (by decide))).1,
   (counterparty_concentration_bounds demoLedger _
      (List.mem_map_of_mem _ (by decide))).2.1⟩

/-! ## Temporal features

Embedding of the temporal query (feature_engineering.py, lines
254-337): the current_time CTE takes MAX(block_timestamp) over the
whole doubled view, and the 7 and 30 day windows count and sum each
wallet events whose timestamp is at least that anchor minus the window
length.  Timestamps are integer seconds; a day is 86400 seconds. -/

/-- SQL MAX over the timestamps of a list of events (0 on the empty
ledger, which produces no wallet rows anyway). -/
def listMaxInt : List ℤ → ℤ
  | [] => 0
  | h :: t => t.foldl max h

/-- One row of the temporal query; only the windowed columns the claim
is about are embedded. -/
structure TemporalFeatures where
  wallet_address : String
  tx_count_7d : ℕ
  value_7d : ℚ
  tx_count_30d : ℕ
  value_30d : ℚ
deriving DecidableEq, Repr

/-- The windowed aggregates of one wallet, anchored at max_time:
COUNTIF(ts at least max_time minus the window) and the matching
CASE WHEN sum. -/
def temporalRow (evs : List WalletEvent) (max_time : ℤ) (w : String) :
    TemporalFeatures :=
  let es := eventsOf evs w
  { wallet_address := w
    tx_count_7d :=
      es.countP (fun e => decide (max_time - 7 * 86400 ≤ e.block_timestamp))
    value_7d :=
      (es.map (fun e =>
        if max_time - 7 * 86400 ≤ e.block_timestamp then e.value_eth else 0)).sum
    tx_count_30d :=
      es.countP (fun e => decide (max_time - 30 * 86400 ≤ e.block_timestamp))
    value_30d :=
      (es.map (fun e =>
        if max_time - 30 * 86400 ≤ e.block_timestamp then e.value_eth else 0)).sum }

/-- The temporal query: one row per wallet meeting the HAVING clause,
every row anchored at the one ledger-wide maximum timestamp. -/
def temporal_features (txs : List Transaction) : List TemporalFeatures :=
  let evs := wallet_transactions txs
  (((evs.map (·.wallet_address)).dedup).filter
    (fun w => decide (min_transactions ≤ (eventsOf evs w).length))).map
    (temporalRow evs (listMaxInt (evs.map (·.block_timestamp))))

/-- The recency anchor as the spec words it: the maximum transaction
timestamp observed within the whole ledger — over every directional
event of every wallet, independent of wall-clock time and of any single
wallet activity. -/
def ledger_anchor (txs : List Transaction) : ℤ :=
  listMaxInt ((wallet_transactions txs).map (·.block_timestamp))

/-- The events of one wallet falling in the last given number of days
before the ledger-wide anchor, as the spec words it. -/
def specWindowEvents (txs : List Transaction) (w : String) (days : ℤ) :
    List WalletEvent :=
  (wallet_transactions txs).filter (fun e =>
    decide (e.wallet_address = w) &&
    decide (ledger_anchor txs - days * 86400 ≤ e.block_timestamp))

/-- Spec-side windowed count. -/
def specWindowTxCount (txs : List Transaction) (w : String) (days : ℤ) : ℕ :=
  (specWindowEvents txs w days).length

/-- Spec-side windowed value sum. -/
def specWindowValue (txs : List Transaction) (w : String) (days : ℤ) : ℚ :=
  ((specWindowEvents txs w days).map (·.value_eth)).sum

theorem sum_map_ite_eq_sum_filter (l : List WalletEvent)
    (P : WalletEvent → Prop) [DecidablePred P] (f : WalletEvent → ℚ) :
    (l.map (fun e => if P e then f e else 0)).sum =
      ((l.filter (fun e => decide (P e))).map f).sum := by
  induction l with
  | nil => rfl
  | cons e t ih =>
    by_cases h : P e <;> simp [List.filter_cons, h, ih]

/-- C7: every row of the temporal features output carries exactly the
spec-side windowed aggregates: tx_count_7d, value_7d, tx_count_30d and
value_30d count and sum the wallet directional events with timestamp
within 7 (respectively 30) days before the maximum timestamp observed
across the whole ledger — a deterministic function of the ledger
snapshot, with no wall-clock or per-wallet anchor. -/
theorem temporal_features_anchor (txs : List Transaction) (r : TemporalFeatures)
    (hr : r ∈ temporal_features txs) :
    r.tx_count_7d = specWindowTxCount txs r.wallet_address 7 ∧
    r.value_7d = specWindowValue txs r.wallet_address 7 ∧
    r.tx_count_30d = specWindowTxCount txs r.wallet_address 30 ∧
    r.value_30d = specWindowValue txs r.wallet_address 30 := by
  unfold temporal_features at hr
  rcases List.mem_map.mp hr with ⟨w, _, rfl⟩
  have hcount : ∀ d : ℤ,
      (eventsOf (wallet_transactions txs) w).countP
        (fun e => decide (ledger_anchor txs - d * 86400 ≤ e.block_timestamp)) =
      specWindowTxCount txs w d := by
    intro d
    unfold specWindowTxCount specWindowEvents eventsOf
    rw [List.countP_eq_length_filter, List.filter_filter,
      List.filter_congr (fun x _ => Bool.and_comm
        (decide (ledger_anchor txs - d * 86400 ≤ x.block_timestamp))
        (decide (x.wallet_address = w)))]
  have hval : ∀ d : ℤ,
      ((eventsOf (wallet_transactions txs) w).map (fun e =>
        if ledger_anchor txs - d * 86400 ≤ e.block_timestamp then e.value_eth
        else 0)).sum = specWindowValue txs w d := by
    intro d
    unfold specWindowValue specWindowEvents eventsOf
    rw [sum_map_ite_eq_sum_filter, List.filter_filter,
      List.filter_congr (fun x _ => Bool.and_comm
        (decide (ledger_anchor txs - d * 86400 ≤ x.block_timestamp))
        (decide (x.wallet_address = w)))]
  exact ⟨hcount 7, hval 7, hcount 30, hval 30⟩

/-- A ledger whose wallet A activity ends 39 days before the global
maximum timestamp set by wallets C and D. -/
def staleWalletLedger : List Transaction :=
  [⟨some "0xA", some "0xB", 5, 1, 21000, 0⟩,
   ⟨some "0xA", some "0xB", 5, 1, 21000, 86400⟩,
   ⟨some "0xC", some "0xD", 1, 1, 21000, 3456000⟩,
   ⟨some "0xC", some "0xD", 1, 1, 21000, 3456060⟩]

/-- Witness for C7 on the wallet A row of a ledger where the global
anchor is 39 days after the last A event, so the 7 day window of A is
empty even though those events are within 7 days of the own last
activity of A. -/
theorem temporal_features_anchor_witness :
    (temporalRow (wallet_transactions staleWalletLedger)
      (listMaxInt ((wallet_transactions staleWalletLedger).map (·.block_timestamp)))
      "0xA").tx_count_7d = specWindowTxCount staleWalletLedger "0xA" 7 ∧
    (temporalRow (wallet_transactions staleWalletLedger)
      (listMaxInt ((wallet_transactions staleWalletLedger).map (·.block_timestamp)))
      "0xA").tx_count_30d = specWindowTxCount staleWalletLedger "0xA" 30 :=
  ⟨(temporal_features_anchor staleWalletLedger _
      (List.mem_map_of_mem _ (by decide))).1,
   (temporal_features_anchor staleWalletLedger _
      (List.mem_map_of_mem _ (by decide))).2.2.1⟩

/-! ## Missing-value handling and the merged feature table

Embedding of handle_missing_values (data_science/utils.py, lines
230-259) and of the merge step of compute_all_features
(feature_engineering.py, lines 382-425).  Since NaN and the infinities
are what the claim is about, cell values are modelled by a float-like
type with explicit non-finite elements.  pandas semantics: a SQL NULL
arrives as NaN; Series.median skips NaN entries and is itself NaN when
none remain; fillna replaces only NaN, never the infinities; and
handle_missing_values touches only columns that contain a NaN. -/

/-- A pandas cell: a finite rational, NaN, or a signed infinity. -/
inductive PFloat where
  | val (q : ℚ)
  | nan
  | inf
  | ninf
deriving DecidableEq, Repr

/-- Float addition on the cases a median of two cells needs. -/
def PFloat.add : PFloat → PFloat → PFloat
  | .val a, .val b => .val (a + b)
  | .nan, _ => .nan
  | _, .nan => .nan
  | .inf, .ninf => .nan
  | .ninf, .inf => .nan
  | .inf, _ => .inf
  | _, .inf => .inf
  | .ninf, _ => .ninf
  | _, .ninf => .ninf

/-- Halving, for the even-count median. -/
def PFloat.half : PFloat → PFloat
  | .val a => .val (a / 2)
  | x => x

/-- The sort order on cells (NaN never reaches the sort). -/
def PFloat.leB : PFloat → PFloat → Bool
  | .nan, _ => true
  | _, .nan => true
  | .ninf, _ => true
  | _, .ninf => false
  | _, .inf => true
  | .inf, _ => false
  | .val a, .val b => decide (a ≤ b)

/-- Ordered insertion for the median sort. -/
def insertSorted (x : PFloat) : List PFloat → List PFloat
  | [] => [x]
  | y :: ys => if PFloat.leB x y then x :: y :: ys else y :: insertSorted x ys

/-- Insertion sort of a cell list. -/
def sortPF (l : List PFloat) : List PFloat := l.foldr insertSorted []

/-- The non-NaN entries of a column, sorted. -/
def sorted_valid (col : List PFloat) : List PFloat :=
  sortPF (col.filter (fun p => !decide (p = PFloat.nan)))

/-- pandas Series.median with the default skipna: the middle non-NaN
entry for an odd count, the mean of the two middle entries for an even
count, NaN when no non-NaN entry exists. -/
def pandasMedian (col : List PFloat) : PFloat :=
  if (sorted_valid col).length = 0 then PFloat.nan
  else if (sorted_valid col).length % 2 = 1 then
    (sorted_valid col).getD ((sorted_valid col).length / 2) PFloat.nan
  else
    PFloat.half (PFloat.add
      ((sorted_valid col).getD ((sorted_valid col).length / 2 - 1) PFloat.nan)
      ((sorted_valid col).getD ((sorted_valid col).length / 2) PFloat.nan))

/-- Series.fillna: replaces exactly the NaN cells. -/
def fillna (col : List PFloat) (v : PFloat) : List PFloat :=
  col.map (fun p => if p = PFloat.nan then v else p)

/-- One column of handle_missing_values with the median strategy: a
column containing a NaN is filled with its median, others pass through
untouched (infinities are not looked at). -/
def handleColumn (col : List PFloat) : List PFloat :=
  if col.any (fun p => decide (p = PFloat.nan)) then
    fillna col (pandasMedian col)
  else col

/-- handle_missing_values (utils.py): every numeric column processed
independently. -/
def handle_missing_values (df : List (List PFloat)) : List (List PFloat) :=
  df.map handleColumn

/-- A SQL value nullable into pandas: NULL becomes NaN. -/
def optQ : Option ℚ → PFloat
  | some q => PFloat.val q
  | none => PFloat.nan

/-- The numeric cells of one merged row, in source column order
(restricted to the embedded columns): the basic row defines the row,
and the behavioral and temporal cells come from a left merge on the
wallet address — a wallet missing from either side gets NaN there. -/
def merged_row (txs : List Transaction) (b : BasicFeatures) : List PFloat :=
  [PFloat.val (b.tx_count : ℚ), PFloat.val (b.tx_count_in : ℚ),
   PFloat.val (b.tx_count_out : ℚ), PFloat.val b.total_value,
   PFloat.val b.total_value_in, PFloat.val b.total_value_out,
   PFloat.val (b.unique_counterparties : ℚ), optQ b.in_out_ratio,
   PFloat.val b.net_flow] ++
  (match (behavioral_features txs).find?
      (fun r => decide (r.wallet_address = b.wallet_address)) with
   | some bh => [PFloat.val bh.counterparty_concentration]
   | none => [PFloat.nan]) ++
  (match (temporal_features txs).find?
      (fun r => decide (r.wallet_address = b.wallet_address)) with
   | some t => [PFloat.val (t.tx_count_7d : ℚ), PFloat.val t.value_7d,
       PFloat.val (t.tx_count_30d : ℚ), PFloat.val t.value_30d]
   | none => [PFloat.nan, PFloat.nan, PFloat.nan, PFloat.nan])

/-- The number of embedded numeric columns of the merged table. -/
def merged_column_count : ℕ := 14

/-- The merged table in column-major form. -/
def merged_columns (txs : List Transaction) : List (List PFloat) :=
  (List.range merged_column_count).map (fun j =>
    (basic_features txs).map (fun b => (merged_row txs b).getD j PFloat.nan))

/-- compute_all_features (feature_engineering.py): the three query
results merged on wallet address, then handle_missing_values with the
median strategy; the wallet key column is returned beside the numeric
columns. -/
def compute_all_features (txs : List Transaction) :
    List String × List (List PFloat) :=
  ((basic_features txs).map (·.wallet_address),
   handle_missing_values (merged_columns txs))

theorem mem_insertSorted (x y : PFloat) (l : List PFloat) :
    y ∈ insertSorted x l ↔ y = x ∨ y ∈ l := by
  induction l with
  | nil => simp [insertSorted]
  | cons z zs ih =>
    unfold insertSorted
    by_cases h : PFloat.leB x z
    · simp [h, ih]
    · simp [h, ih]
      tauto

theorem mem_sortPF (y : PFloat) (l : List PFloat) : y ∈ sortPF l ↔ y ∈ l := by
  induction l with
  | nil => simp [sortPF]
  | cons z zs ih =>
    show y ∈ insertSorted z (sortPF zs) ↔ _
    rw [mem_insertSorted]
    simp [ih]

theorem length_insertSorted (x : PFloat) (l : List PFloat) :
    (insertSorted x l).length = l.length + 1 := by
  induction l with
  | nil => rfl
  | cons z zs ih =>
    unfold insertSorted
    by_cases h : PFloat.leB x z <;> simp [h, ih]

theorem length_sortPF (l : List PFloat) : (sortPF l).length = l.length := by
  induction l with
  | nil => rfl
  | cons z zs ih =>
    show (insertSorted z (sortPF zs)).length = _
    rw [length_insertSorted, ih]
    rfl

theorem median_core_isVal (xs : List PFloat)
    (hval : ∀ p ∈ xs, ∃ a, p = PFloat.val a) (hne : 0 < xs.length) :
    ∃ m, (if xs.length = 0 then PFloat.nan
      else if xs.length % 2 = 1 then xs.getD (xs.length / 2) PFloat.nan
      else PFloat.half (PFloat.add (xs.getD (xs.length / 2 - 1) PFloat.nan)
        (xs.getD (xs.length / 2) PFloat.nan))) = PFloat.val m := by
  rw [if_neg (by omega)]
  have hlt2 : xs.length / 2 < xs.length := Nat.div_lt_self hne (by norm_num)
  by_cases hodd : xs.length % 2 = 1
  · rw [if_pos hodd, List.getD_eq_getElem xs PFloat.nan hlt2]
    exact hval _ (List.getElem_mem hlt2)
  · rw [if_neg hodd]
    have hle : xs.length / 2 ≤ xs.length := Nat.div_le_self _ _
    have hlt1 : xs.length / 2 - 1 < xs.length := by omega
    obtain ⟨a, ha⟩ := hval _ (List.getElem_mem hlt1)
    obtain ⟨b, hb⟩ := hval _ (List.getElem_mem hlt2)
    rw [List.getD_eq_getElem xs PFloat.nan hlt1,
      List.getD_eq_getElem xs PFloat.nan hlt2, ha, hb]
    exact ⟨(a + b) / 2, rfl⟩

theorem pandasMedian_isVal (col : List PFloat)
    (hfin : ∀ p ∈ col, p ≠ PFloat.inf ∧ p ≠ PFloat.ninf)
    (hex : ∃ q, PFloat.val q ∈ col) :
    ∃ m, pandasMedian col = PFloat.val m := by
  obtain ⟨q, hq⟩ := hex
  have hxval : ∀ p ∈ sorted_valid col, ∃ a, p = PFloat.val a := by
    intro p hp
    have hp2 : p ∈ col.filter (fun p => !decide (p = PFloat.nan)) :=
      (mem_sortPF p _).mp hp
    have hpcol : p ∈ col := (List.mem_filter.mp hp2).1
    have hpnan : p ≠ PFloat.nan := by
      have := (List.mem_filter.mp hp2).2
      simpa using this
    rcases p with a | _ | _ | _
    · exact ⟨a, rfl⟩
    · exact absurd rfl hpnan
    · exact absurd rfl (hfin _ hpcol).1
    · exact absurd rfl (hfin _ hpcol).2
  have hne : 0 < (sorted_valid col).length := by
    have hmem : PFloat.val q ∈ sorted_valid col :=
      (mem_sortPF _ _).mpr (List.mem_filter.mpr ⟨hq, by simp⟩)
    exact List.length_pos.mpr (List.ne_nil_of_mem hmem)
  unfold pandasMedian
  exact median_core_isVal (sorted_valid col) hxval hne

/-- C8 amended: handle_missing_values leaves a column all-finite exactly
under the conditions the code actually enforces — every cell of the
incoming column is non-infinite and at least one cell is a finite
value.  NaN cells are then filled with the per-column median; but a
column whose cells are all NaN keeps its NaNs (its median is NaN), and
no infinity-replacement step exists in this path (that replacement
lives in prepare_features of the model, not in compute_all_features). -/
theorem handle_missing_values_finite (df : List (List PFloat))
    (hfin : ∀ col ∈ df, ∀ p ∈ col, p ≠ PFloat.inf ∧ p ≠ PFloat.ninf)
    (hex : ∀ col ∈ df, ∃ q, PFloat.val q ∈ col) :
    ∀ col2 ∈ handle_missing_values df, ∀ p ∈ col2, ∃ q, p = PFloat.val q := by
  intro col2 hcol2 p hp
  unfold handle_missing_values at hcol2
  rcases List.mem_map.mp hcol2 with ⟨col, hcol, rfl⟩
  unfold handleColumn at hp
  by_cases hany : col.any (fun p => decide (p = PFloat.nan))
  · rw [if_pos hany] at hp
    unfold fillna at hp
    rcases List.mem_map.mp hp with ⟨p0, hp0, rfl⟩
    by_cases hnan : p0 = PFloat.nan
    · rw [if_pos hnan]
      exact pandasMedian_isVal col (hfin col hcol) (hex col hcol)
    · rw [if_neg hnan]
      rcases p0 with a | _ | _ | _
      · exact ⟨a, rfl⟩
      · exact absurd rfl hnan
      · exact absurd rfl (hfin col hcol _ hp0).1
      · exact absurd rfl (hfin col hcol _ hp0).2
  · rw [if_neg hany] at hp
    have hnan : p ≠ PFloat.nan := by
      intro hcontra
      exact hany (List.any_eq_true.mpr ⟨p, hp, by simp [hcontra]⟩)
    rcases p with a | _ | _ | _
    · exact ⟨a, rfl⟩
    · exact absurd rfl hnan
    · exact absurd rfl (hfin _ hcol _ hp).1
    · exact absurd rfl (hfin _ hcol _ hp).2

/-- A ledger where the only qualifying wallet (B) has inflows only:
A and C each send once to B. -/
def twoSenderLedger : List Transaction :=
  [⟨some "0xA", some "0xB", 5, 1, 21000, 0⟩,
   ⟨some "0xC", some "0xB", 5, 1, 21000, 60⟩]

/-- C8 counterexample: on the two-sender ledger, the in_out_ratio
column (index 7) of the merged table is NULL for the single qualifying
wallet, so after handle_missing_values the column median is NaN and the
NaN survives into the output of compute_all_features — the output is
not NaN-free. -/
theorem compute_all_features_nan_counterexample :
    (compute_all_features twoSenderLedger).2.getD 7 [] = [PFloat.nan] ∧
    PFloat.nan ∈ (compute_all_features twoSenderLedger).2.getD 7 [] := by
  refine ⟨?_, ?_⟩ <;> decide

/-- Witness for C8 amended on a one-column table holding a finite value
and a NaN: the NaN cell comes out as a finite value. -/
theorem handle_missing_values_finite_witness :
    ∃ q, ((handle_missing_values [[PFloat.val 1, PFloat.nan]]).getD 0 []).getD 1
      PFloat.nan = PFloat.val q :=
  handle_missing_values_finite [[PFloat.val 1, PFloat.nan]]
    (by decide)
    (fun col hcol => ⟨1, by
      have hc : col = [PFloat.val 1, PFloat.nan] := by simpa using hcol
      rw [hc]
      simp⟩)
    ((handle_missing_values [[PFloat.val 1, PFloat.nan]]).getD 0 [])
    (by decide) _ (by decide)

/-! ## Clustering evaluation

Embedding of ModelEvaluator.evaluate_clustering
(data_science/model_evaluation.py, lines 154-199).  The cluster label
array is a list of integers with -1 the designated noise label.  The
three quality indices are computed by the external metrics library,
whose outcome (a value or a raised error) is passed in; the source
wraps each call in its own try/except and stores null on failure, and
guards all three behind the two-clusters / non-noise-point check.  The
noise ratio is a numpy mean, NaN on an empty label array. -/

/-- len(set(labels)) minus one when the noise label -1 is present. -/
def nClusters (labels : List ℤ) : ℕ :=
  labels.dedup.length - (if (-1 : ℤ) ∈ labels then 1 else 0)

/-- The number of noise-labelled points. -/
def nNoise (labels : List ℤ) : ℕ := labels.count (-1)

/-- The number of non-noise points. -/
def nonNoiseCount (labels : List ℤ) : ℕ :=
  labels.countP (fun x => decide (x ≠ -1))

/-- The noise ratio as numpy computes it: the mean of an empty array is
NaN, never an error. -/
def noiseRatio (labels : List ℤ) : PFloat :=
  if labels.length = 0 then PFloat.nan
  else PFloat.val ((nNoise labels : ℚ) / (labels.length : ℚ))

/-- The metrics dictionary: the three index fields are absent (outer
none) when the guard fails, and null (some none) when the index raised
on the given labels. -/
structure ClusteringMetrics where
  n_clusters : ℕ
  n_noise : ℕ
  noise_ratio : PFloat
  silhouette_score : Option (Option ℚ)
  calinski_harabasz_score : Option (Option ℚ)
  davies_bouldin_score : Option (Option ℚ)
deriving DecidableEq, Repr

/-- One try/except around a quality index call: a raised error is
recorded as null instead of propagating. -/
def tryMetric (r : Except String ℚ) : Except String (Option ℚ) :=
  match r with
  | .ok v => .ok (some v)
  | .error _ => .ok none

namespace ModelEvaluator

/-- ModelEvaluator.evaluate_clustering: count clusters and noise, and
only when more than one real cluster and at least one non-noise point
exist, attempt the three indices, each caught individually. -/
def evaluate_clustering (labels : List ℤ)
    (silhouette calinski davies : Except String ℚ) :
    Except String ClusteringMetrics := do
  let base : ClusteringMetrics :=
    { n_clusters := nClusters labels, n_noise := nNoise labels,
      noise_ratio := noiseRatio labels,
      silhouette_score := none, calinski_harabasz_score := none,
      davies_bouldin_score := none }
  if 1 < nClusters labels ∧ 0 < nonNoiseCount labels then
    let s ← tryMetric silhouette
    let c ← tryMetric calinski
    let d ← tryMetric davies
    pure { n_clusters := nClusters labels, n_noise := nNoise labels,
           noise_ratio := noiseRatio labels,
           silhouette_score := some s,
           calinski_harabasz_score := some c,
           davies_bouldin_score := some d }
  else
    pure base

end ModelEvaluator

/-- C9: evaluate_clustering never returns an error to its caller, for
every label list and every outcome of the three index computations:
when fewer than 2 real clusters or no non-noise point exists the three
indices are absent, and otherwise each index is present, carrying its
computed value or null exactly when its computation raised. -/
theorem evaluate_clustering_never_raises (labels : List ℤ)
    (silhouette calinski davies : Except String ℚ) :
    exceptIsOk (ModelEvaluator.evaluate_clustering labels
      silhouette calinski davies) = true ∧
    (¬ (1 < nClusters labels ∧ 0 < nonNoiseCount labels) →
      ModelEvaluator.evaluate_clustering labels silhouette calinski davies =
        .ok { n_clusters := nClusters labels, n_noise := nNoise labels,
              noise_ratio := noiseRatio labels,
              silhouette_score := none, calinski_harabasz_score := none,
              davies_bouldin_score := none }) ∧
    ((1 < nClusters labels ∧ 0 < nonNoiseCount labels) →
      ModelEvaluator.evaluate_clustering labels silhouette calinski davies =
        .ok { n_clusters := nClusters labels, n_noise := nNoise labels,
              noise_ratio := noiseRatio labels,
              silhouette_score := some silhouette.toOption,
              calinski_harabasz_score := some calinski.toOption,
              davies_bouldin_score := some davies.toOption }) := by
  by_cases hg : 1 < nClusters labels ∧ 0 < nonNoiseCount labels
  · refine ⟨?_, fun hc => absurd hg hc, fun _ => ?_⟩ <;>
      rcases silhouette with v | e <;> rcases calinski with v2 | e2 <;>
      rcases davies with v3 | e3 <;>
      simp [ModelEvaluator.evaluate_clustering, hg, tryMetric, exceptIsOk,
        Except.toOption, bind, Except.bind, pure, Except.pure]
  · refine ⟨?_, fun _ => ?_, fun hc => absurd hc hg⟩ <;>
      simp [ModelEvaluator.evaluate_clustering, hg, exceptIsOk,
        bind, Except.bind, pure, Except.pure]

/-- Witness for C9 on a concrete degenerate run: two real clusters with
one noise point, the silhouette and Davies-Bouldin computations raising
and Calinski-Harabasz succeeding — the call still returns a result,
with null recorded for the two raised indices. -/
theorem evaluate_clustering_never_raises_witness :
    ModelEvaluator.evaluate_clustering [0, 0, 1, 1, -1]
      (.error "degenerate") (.ok (1/2)) (.error "degenerate") =
      .ok { n_clusters := nClusters [0, 0, 1, 1, -1],
            n_noise := nNoise [0, 0, 1, 1, -1],
            noise_ratio := noiseRatio [0, 0, 1, 1, -1],
            silhouette_score := some none,
            calinski_harabasz_score := some (some (1/2)),
            davies_bouldin_score := some none } :=
  (evaluate_clustering_never_raises [0, 0, 1, 1, -1]
    (.error "degenerate") (.ok (1/2)) (.error "degenerate")).2.2
    (by constructor <;> decide)

end BlockchainAnalytics
